import Mathlib

/-
Shallow embedding of binance_trade_bot/auto_trader.py (class AutoTrader)
and of the external collaborators it uses, and proofs of the spec's
claims about it.

Prices and ratios are modelled as rationals (ℚ); the snapshot returned by
get_all_market_tickers is an association list from ticker symbol to price;
the Pair table of the database is a list of pair records.  Successive
calls to get_all_market_tickers inside one scout pass are modelled by a
stream of snapshots indexed by call order.
-/

namespace AutoTrader

/-- A tradeable coin: its ticker symbol and its enabled flag
(models.Coin; `coin + other` in the source concatenates symbols). -/
structure Coin where
  symbol : String
  enabled : Bool
deriving DecidableEq, Repr

/-- One row of the Pair table (models.Pair): an ordered coin pair and its
stored ratio; a NULL ratio in the database is `none`. -/
structure PairRec where
  from_coin : Coin
  to_coin : Coin
  ratio : Option ℚ
deriving DecidableEq, Repr

/-- A price snapshot: the list returned by get_all_market_tickers,
mapping ticker symbols to prices. -/
abbrev Tickers := List (String × ℚ)

/-- utils.get_market_ticker_price_from_list.  Modelled from the spec:
utils.py is not under src/; the spec describes the snapshot as a mapping
from asset to price in which entries may be absent (§3 Price Snapshot,
§4.1), so the lookup returns the price of the first matching ticker and
`none` when the symbol is absent. -/
def get_market_ticker_price_from_list (all_tickers : Tickers) (ticker_symbol : String) : Option ℚ :=
  (all_tickers.find? (fun t => t.1 == ticker_symbol)).map (fun t => t.2)

/-- The configuration fields of config.Config that auto_trader.py reads. -/
structure Config where
  BRIDGE : Coin
  SCOUT_TRANSACTION_FEE : ℚ
  SCOUT_MULTIPLIER : ℚ

/-- database.Database.get_pairs_from.  Modelled from the spec:
database.py is not under src/; §4.1 says the Ratio Engine considers
"every Pair with `from == asset`". -/
def get_pairs_from (table : List PairRec) (coin : Coin) : List PairRec :=
  table.filter (fun p => p.from_coin == coin)

/-- AutoTrader._get_ratios: for every pair from `coin`, skip it when the
counterpart's price is absent from the snapshot, otherwise score it as
(coin_price/optional_coin_price) minus the fee drag minus the stored
ratio.  A pair whose stored ratio is unset is skipped as well (modelled
from the spec §7: database.py, which supplies the pairs, is not under
src/, and the spec says any scouting comparison against an unset ratio
is deferred — the pair skipped — until initialized). -/
def get_ratios (cfg : Config) (table : List PairRec) (coin : Coin) (coin_price : ℚ)
    (all_tickers : Tickers) : List (PairRec × ℚ) :=
  (get_pairs_from table coin).filterMap (fun pair =>
    match get_market_ticker_price_from_list all_tickers (pair.to_coin.symbol ++ cfg.BRIDGE.symbol) with
    | none => none
    | some optional_coin_price =>
      match pair.ratio with
      | none => none
      | some stored_ratio =>
        let coin_opt_coin_ratio := coin_price / optional_coin_price
        some (pair,
          (coin_opt_coin_ratio
            - cfg.SCOUT_TRANSACTION_FEE * cfg.SCOUT_MULTIPLIER * coin_opt_coin_ratio)
          - stored_ratio))

/-- The body of the update_trade_threshold loop for one pair row: when
the row's to-side is the bought coin and its from-side price is in the
snapshot, its ratio becomes from_coin_price / price. -/
def update_row (cfg : Config) (all_tickers : Tickers) (current_coin : Coin) (price : ℚ)
    (pair : PairRec) : PairRec :=
  if pair.to_coin == current_coin then
    match get_market_ticker_price_from_list all_tickers (pair.from_coin.symbol ++ cfg.BRIDGE.symbol) with
    | none => pair
    | some from_coin_price => { pair with ratio := some (from_coin_price / price) }
  else pair

/-- AutoTrader.update_trade_threshold: when the fill price is present,
every pair whose to-side is the newly bought coin and whose from-side
price is in the snapshot gets ratio := from_coin_price / current_coin_price;
every other pair row is left as it is. -/
def update_trade_threshold (cfg : Config) (table : List PairRec) (current_coin : Coin)
    (current_coin_price : Option ℚ) (all_tickers : Tickers) : List PairRec :=
  match current_coin_price with
  | none => table
  | some price => table.map (update_row cfg all_tickers current_coin price)

/-- The body of the initialize_trade_thresholds loop for one pair row:
when the row's ratio is unset, both its coins are enabled and both
their prices are in the snapshot, its ratio becomes
from_coin_price / to_coin_price. -/
def initialize_row (cfg : Config) (all_tickers : Tickers) (pair : PairRec) : PairRec :=
  match pair.ratio with
  | some _ => pair
  | none =>
    if !pair.from_coin.enabled || !pair.to_coin.enabled then pair
    else
      match get_market_ticker_price_from_list all_tickers (pair.from_coin.symbol ++ cfg.BRIDGE.symbol) with
      | none => pair
      | some from_coin_price =>
        match get_market_ticker_price_from_list all_tickers (pair.to_coin.symbol ++ cfg.BRIDGE.symbol) with
        | none => pair
        | some to_coin_price => { pair with ratio := some (from_coin_price / to_coin_price) }

/-- AutoTrader.initialize_trade_thresholds: every pair whose ratio is
unset, whose two coins are both enabled and whose two prices are both in
the snapshot gets ratio := from_coin_price / to_coin_price; every other
pair row is left as it is.  The snapshot is the one the method fetches
at its start. -/
def initialize_trade_thresholds (cfg : Config) (all_tickers : Tickers)
    (table : List PairRec) : List PairRec :=
  table.map (initialize_row cfg all_tickers)

/-- A call of the manager's sell_alt or buy_alt (order placement). -/
inductive Action where
  | sell_action (c : Coin)
  | buy_action (c : Coin)
deriving DecidableEq, Repr

/-- The external collaborators of AutoTrader (binance_manager and the
parts of database.py that scouting reads).  Modelled from the spec §6:
these files are not under src/.  `ticker_stream n` is the snapshot
returned by the (n+1)-th call of get_all_market_tickers inside one scout
pass; `sell_ok c` is whether sell_alt(c, BRIDGE) returns a fill;
`buy_fill c` is the fill price of buy_alt(c, BRIDGE, tickers) when it
succeeds. -/
structure Manager where
  balances : String → ℚ
  min_notional_of : String → String → ℚ
  sell_ok : Coin → Bool
  buy_fill : Coin → Option ℚ
  ticker_stream : Nat → Tickers

/-- AutoTrader.transaction_through_bridge: sell the from-coin into the
bridge; on failure return False with the table untouched; otherwise buy
the to-coin; on failure return False with the table untouched; on
success recalibrate via update_trade_threshold at the fill price and
return True.  The action list records the order placements attempted. -/
def transaction_through_bridge (cfg : Config) (m : Manager) (table : List PairRec)
    (pair : PairRec) (all_tickers : Tickers) : Bool × List PairRec × List Action :=
  if m.sell_ok pair.from_coin then
    match m.buy_fill pair.to_coin with
    | some price =>
      (true,
       update_trade_threshold cfg table pair.to_coin (some price) all_tickers,
       [Action.sell_action pair.from_coin, Action.buy_action pair.to_coin])
    | none => (false, table, [Action.sell_action pair.from_coin, Action.buy_action pair.to_coin])
  else (false, table, [Action.sell_action pair.from_coin])

/-- Python max(ratio_dict, key=ratio_dict.get) over a nonempty
association list: keep the first entry, replacing it only by a strictly
greater score, so ties are broken by first-seen order. -/
def max_pair_from (best : PairRec × ℚ) : List (PairRec × ℚ) → PairRec
  | [] => best.1
  | kv :: rest => if best.2 < kv.2 then max_pair_from kv rest else max_pair_from best rest

/-- The best pair of a score dictionary, `none` when it is empty. -/
def max_pair : List (PairRec × ℚ) → Option PairRec
  | [] => none
  | kv :: rest => some (max_pair_from kv rest)

/-- The outcome of the per-asset loop of AutoTrader.scout: the table of
pair rows after the loop's trades, the order placements attempted, the
coins whose loop body was entered, and whether the loop returned early
because the scouted coin's own price was missing. -/
structure LoopOut where
  table : List PairRec
  actions : List Action
  examined : List Coin
  aborted : Bool
deriving DecidableEq, Repr

/-- The per-asset loop of AutoTrader.scout over the tracked coins, using
the single snapshot `all_tickers` taken when scout started: a missing
own price returns from scout at once; a balance worth less than the
minimum notional skips the coin; otherwise the positive scores are kept
and, when any remain, the best pair is handed to
transaction_through_bridge. -/
def scout_loop (cfg : Config) (m : Manager) (all_tickers : Tickers) :
    List Coin → List PairRec → LoopOut
  | [], table => { table := table, actions := [], examined := [], aborted := false }
  | coin :: rest, table =>
    let current_coin_balance := m.balances coin.symbol
    match get_market_ticker_price_from_list all_tickers (coin.symbol ++ cfg.BRIDGE.symbol) with
    | none => { table := table, actions := [], examined := [coin], aborted := true }
    | some coin_price =>
      if coin_price * current_coin_balance < m.min_notional_of coin.symbol cfg.BRIDGE.symbol then
        let r := scout_loop cfg m all_tickers rest table
        { r with examined := coin :: r.examined }
      else
        let ratio_dict := (get_ratios cfg table coin coin_price all_tickers).filter
          (fun kv => 0 < kv.2)
        match max_pair ratio_dict with
        | none =>
          let r := scout_loop cfg m all_tickers rest table
          { r with examined := coin :: r.examined }
        | some best_pair =>
          let t := transaction_through_bridge cfg m table best_pair all_tickers
          let r := scout_loop cfg m all_tickers rest t.2.1
          { r with actions := t.2.2 ++ r.actions, examined := coin :: r.examined }

/-- The outcome of AutoTrader.bridge_scout: the coins whose loop body
was entered and the order placements attempted. -/
structure BridgeOut where
  examined : List Coin
  actions : List Action
deriving DecidableEq, Repr

/-- The loop of AutoTrader.bridge_scout: a missing own price returns at
once; a coin with any strictly positive score is passed over; the first
coin with none is bought — when the bridge balance strictly exceeds its
minimum notional — and the loop returns, examining no later coin. -/
def bridge_scout_loop (cfg : Config) (m : Manager) (all_tickers : Tickers)
    (bridge_balance : ℚ) (table : List PairRec) : List Coin → BridgeOut
  | [] => { examined := [], actions := [] }
  | coin :: rest =>
    match get_market_ticker_price_from_list all_tickers (coin.symbol ++ cfg.BRIDGE.symbol) with
    | none => { examined := [coin], actions := [] }
    | some current_coin_price =>
      let ratio_dict := get_ratios cfg table coin current_coin_price all_tickers
      if ratio_dict.any (fun kv => 0 < kv.2) then
        let r := bridge_scout_loop cfg m all_tickers bridge_balance table rest
        { r with examined := coin :: r.examined }
      else
        if m.min_notional_of coin.symbol cfg.BRIDGE.symbol < bridge_balance then
          { examined := [coin], actions := [Action.buy_action coin] }
        else { examined := [coin], actions := [] }

/-- AutoTrader.bridge_scout: read the bridge balance, fetch a snapshot
(the `fetch`-th get_all_market_tickers call of the pass) and run the
loop over the tracked coins. -/
def bridge_scout (cfg : Config) (m : Manager) (fetch : Nat) (table : List PairRec)
    (coins : List Coin) : BridgeOut :=
  let bridge_balance := m.balances cfg.BRIDGE.symbol
  let all_tickers := m.ticker_stream fetch
  bridge_scout_loop cfg m all_tickers bridge_balance table coins

/-- The outcome of one AutoTrader.scout pass: the table of pair rows,
all order placements attempted (per-asset loop then bridge_scout), how
many get_all_market_tickers calls the pass made, and whether the
per-asset loop returned early. -/
structure ScoutOutcome where
  table : List PairRec
  actions : List Action
  fetches : Nat
  aborted : Bool
deriving DecidableEq, Repr

/-- AutoTrader.scout: fetch one snapshot, run the per-asset loop with
it, and — unless the loop returned early — run bridge_scout, which
fetches a snapshot of its own. -/
def scout (cfg : Config) (m : Manager) (table : List PairRec) (coins : List Coin) :
    ScoutOutcome :=
  let all_tickers := m.ticker_stream 0
  let r := scout_loop cfg m all_tickers coins table
  if r.aborted then
    { table := r.table, actions := r.actions, fetches := 1, aborted := true }
  else
    let b := bridge_scout cfg m 1 r.table coins
    { table := r.table, actions := r.actions ++ b.actions, fetches := 2, aborted := false }

/-! Concrete fixtures used by witnesses and counterexamples. -/

def bridgeUSDT : Coin := ⟨"USDT", true⟩

def coinA : Coin := ⟨"AAA", true⟩

def coinB : Coin := ⟨"BBB", true⟩

def cfg1 : Config := ⟨bridgeUSDT, 1/1000, 1⟩

def pairAB : PairRec := ⟨coinA, coinB, some (3/2)⟩

def table1 : List PairRec := [pairAB]

def tickers1 : Tickers := [("AAAUSDT", 10), ("BBBUSDT", 5)]

/-- C1: for an asset priced `p`, a counterpart priced `q` in the
snapshot, a stored ratio `r`, fee `f` and multiplier `m`, _get_ratios
scores the pair as (p/q) - f*m*(p/q) - r. -/
theorem C1_score_formula (cfg : Config) (table : List PairRec) (coin : Coin)
    (pair : PairRec) (p q r : ℚ) (all_tickers : Tickers)
    (hpair : pair ∈ table) (hfrom : pair.from_coin = coin)
    (hratio : pair.ratio = some r)
    (hq : get_market_ticker_price_from_list all_tickers
      (pair.to_coin.symbol ++ cfg.BRIDGE.symbol) = some q) :
    (pair, (p / q - cfg.SCOUT_TRANSACTION_FEE * cfg.SCOUT_MULTIPLIER * (p / q)) - r)
      ∈ get_ratios cfg table coin p all_tickers := by
  unfold get_ratios
  refine List.mem_filterMap.mpr ⟨pair, ?_, ?_⟩
  · unfold get_pairs_from
    simp [List.mem_filter, hpair, hfrom]
  · rw [hq, hratio]

/-- C1 witness: with prices A/Bridge = 10, B/Bridge = 5, stored ratio
3/2, fee 1/1000 and multiplier 1, the score of the pair A→B is exactly
249/500 = 0.498. -/
theorem C1_score_formula_witness :
    (pairAB, (249 : ℚ)/500) ∈ get_ratios cfg1 table1 coinA 10 tickers1 := by
  have h := C1_score_formula cfg1 table1 coinA pairAB 10 5 (3/2) tickers1
    (by simp [table1]) rfl rfl
    (by simp [get_market_ticker_price_from_list, tickers1, pairAB, coinB, cfg1, bridgeUSDT])
  have e : ((10 : ℚ) / 5 - cfg1.SCOUT_TRANSACTION_FEE * cfg1.SCOUT_MULTIPLIER * ((10 : ℚ) / 5))
      - 3/2 = (249 : ℚ)/500 := by
    show (10 : ℚ) / 5 - 1/1000 * 1 * ((10 : ℚ) / 5) - 3/2 = (249 : ℚ)/500
    norm_num
  rw [e] at h
  exact h

/-- C7: the score dictionary _get_ratios returns contains no pair whose
counterpart (to-side) price is absent from the snapshot. -/
theorem C7_counterpart_present (cfg : Config) (table : List PairRec) (coin : Coin)
    (coin_price : ℚ) (all_tickers : Tickers) (pair : PairRec) (score : ℚ)
    (h : (pair, score) ∈ get_ratios cfg table coin coin_price all_tickers) :
    (get_market_ticker_price_from_list all_tickers
      (pair.to_coin.symbol ++ cfg.BRIDGE.symbol)).isSome := by
  unfold get_ratios at h
  obtain ⟨pr, hmem, heq⟩ := List.mem_filterMap.mp h
  cases hlk : get_market_ticker_price_from_list all_tickers
      (pr.to_coin.symbol ++ cfg.BRIDGE.symbol) with
  | none => rw [hlk] at heq; simp at heq
  | some q =>
    rw [hlk] at heq
    cases hr : pr.ratio with
    | none => rw [hr] at heq; simp at heq
    | some r =>
      rw [hr] at heq
      simp only [Option.some.injEq, Prod.mk.injEq] at heq
      rw [← heq.1, hlk]
      rfl

/-- C7 witness: at the concrete fixture the only returned pair is A→B
and its counterpart price is indeed in the snapshot. -/
theorem C7_counterpart_present_witness :
    (get_market_ticker_price_from_list tickers1
      (pairAB.to_coin.symbol ++ cfg1.BRIDGE.symbol)).isSome :=
  C7_counterpart_present cfg1 table1 coinA 10 tickers1 pairAB ((249 : ℚ)/500)
    (by
      simp [get_ratios, get_pairs_from, get_market_ticker_price_from_list, table1,
        tickers1, pairAB, cfg1, coinA, coinB, bridgeUSDT]
      norm_num)

/-- C4: a failed sell leg returns failure with the pair table untouched;
a successful sell followed by a failed buy returns failure with the
table untouched; the jump succeeds — and recalibrates via
update_trade_threshold at the fill price — exactly when both legs
succeed. -/
theorem C4_jump_failure_modes (cfg : Config) (m : Manager) (table : List PairRec)
    (pair : PairRec) (all_tickers : Tickers) :
    (m.sell_ok pair.from_coin = false →
      transaction_through_bridge cfg m table pair all_tickers =
        (false, table, [Action.sell_action pair.from_coin])) ∧
    (m.sell_ok pair.from_coin = true → m.buy_fill pair.to_coin = none →
      transaction_through_bridge cfg m table pair all_tickers =
        (false, table, [Action.sell_action pair.from_coin, Action.buy_action pair.to_coin])) ∧
    ((transaction_through_bridge cfg m table pair all_tickers).1 = true ↔
      m.sell_ok pair.from_coin = true ∧ (m.buy_fill pair.to_coin).isSome) ∧
    (∀ price, m.sell_ok pair.from_coin = true → m.buy_fill pair.to_coin = some price →
      transaction_through_bridge cfg m table pair all_tickers =
        (true, update_trade_threshold cfg table pair.to_coin (some price) all_tickers,
         [Action.sell_action pair.from_coin, Action.buy_action pair.to_coin])) := by
  unfold transaction_through_bridge
  refine ⟨?_, ?_, ?_, ?_⟩
  · intro hs; simp [hs]
  · intro hs hb; simp [hs, hb]
  · cases hs : m.sell_ok pair.from_coin with
    | false => simp [hs]
    | true => cases hb : m.buy_fill pair.to_coin with
      | none => simp [hs, hb]
      | some price => simp [hs, hb]
  · intro price hs hb; simp [hs, hb]

/-- The manager of the C4 witness: every sell is rejected. -/
def mgr_fail : Manager :=
  { balances := fun _ => 0, min_notional_of := fun _ _ => 10,
    sell_ok := fun _ => false, buy_fill := fun _ => none,
    ticker_stream := fun _ => tickers1 }

/-- C4 witness: with a manager that rejects every sell, the jump fails
and leaves the table untouched. -/
theorem C4_jump_failure_modes_witness :
    transaction_through_bridge cfg1 mgr_fail table1 pairAB tickers1 =
      (false, table1, [Action.sell_action pairAB.from_coin]) :=
  (C4_jump_failure_modes cfg1 mgr_fail table1 pairAB tickers1).1 rfl

/-- C5: after a successful jump into coin B at fill price f, the row of
every pair with to-side B whose from-side price p is in the snapshot is
rewritten with ratio p / f, the row of every pair with to-side B whose
from-side price is absent is unchanged, and the row of every pair with a
different to-side is unchanged. -/
theorem C5_recalibration_frame (cfg : Config) (table : List PairRec) (B : Coin)
    (f : ℚ) (all_tickers : Tickers) (i : Nat) (h : i < table.length)
    (h2 : i < (update_trade_threshold cfg table B (some f) all_tickers).length) :
    ((table.get ⟨i, h⟩).to_coin = B →
      (∀ p, get_market_ticker_price_from_list all_tickers
          ((table.get ⟨i, h⟩).from_coin.symbol ++ cfg.BRIDGE.symbol) = some p →
        (update_trade_threshold cfg table B (some f) all_tickers).get ⟨i, h2⟩ =
          { table.get ⟨i, h⟩ with ratio := some (p / f) }) ∧
      (get_market_ticker_price_from_list all_tickers
          ((table.get ⟨i, h⟩).from_coin.symbol ++ cfg.BRIDGE.symbol) = none →
        (update_trade_threshold cfg table B (some f) all_tickers).get ⟨i, h2⟩ =
          table.get ⟨i, h⟩)) ∧
    ((table.get ⟨i, h⟩).to_coin ≠ B →
      (update_trade_threshold cfg table B (some f) all_tickers).get ⟨i, h2⟩ =
        table.get ⟨i, h⟩) := by
  have hget : (update_trade_threshold cfg table B (some f) all_tickers).get ⟨i, h2⟩ =
      update_row cfg all_tickers B f (table.get ⟨i, h⟩) := by
    show (table.map _).get _ = _
    simp [List.getElem_map]
  refine ⟨fun hto => ⟨fun p hp => ?_, fun hp => ?_⟩, fun hto => ?_⟩
  · rw [hget]; unfold update_row; simp only [hto, beq_self_eq_true, if_true, hp]
  · rw [hget]; unfold update_row; simp only [hto, beq_self_eq_true, if_true, hp]
  · rw [hget]; unfold update_row
    have hb : ((table.get ⟨i, h⟩).to_coin == B) = false := beq_eq_false_iff_ne.mpr hto
    simp only [hb, Bool.false_eq_true, if_false]

/-- C5 witness: recalibrating into coin B at fill price 4 rewrites the
single row A→B, whose from-side price 10 is in the snapshot, with ratio
10/4. -/
theorem C5_recalibration_frame_witness :
    (update_trade_threshold cfg1 table1 coinB (some 4) tickers1).get
        ⟨0, by simp [update_trade_threshold, table1]⟩ =
      { table1.get ⟨0, by simp [table1]⟩ with ratio := some ((10 : ℚ) / 4) } :=
  ((C5_recalibration_frame cfg1 table1 coinB 4 tickers1 0 (by simp [table1])
      (by simp [update_trade_threshold, table1])).1
    (by simp [table1, pairAB]))
    |>.1 10 (by simp [table1, pairAB, coinA, cfg1, bridgeUSDT,
      get_market_ticker_price_from_list, tickers1])

/-- C8: the Threshold Initializer sets a ratio only for rows whose
ratio is unset, whose two coins are both enabled and whose two prices
are both in the snapshot — setting it to fromPrice / toPrice — and
leaves every other row unchanged; running it again on its own output
with the same snapshot changes nothing. -/
theorem C8_initializer_idempotent (cfg : Config) (t : Tickers) (table : List PairRec) :
    initialize_trade_thresholds cfg t (initialize_trade_thresholds cfg t table) =
      initialize_trade_thresholds cfg t table ∧
    (∀ (i : Nat) (h : i < table.length)
        (h2 : i < (initialize_trade_thresholds cfg t table).length),
      (∀ fp tp, (table.get ⟨i, h⟩).ratio = none →
        (table.get ⟨i, h⟩).from_coin.enabled = true →
        (table.get ⟨i, h⟩).to_coin.enabled = true →
        get_market_ticker_price_from_list t
          ((table.get ⟨i, h⟩).from_coin.symbol ++ cfg.BRIDGE.symbol) = some fp →
        get_market_ticker_price_from_list t
          ((table.get ⟨i, h⟩).to_coin.symbol ++ cfg.BRIDGE.symbol) = some tp →
        (initialize_trade_thresholds cfg t table).get ⟨i, h2⟩ =
          { table.get ⟨i, h⟩ with ratio := some (fp / tp) }) ∧
      ((table.get ⟨i, h⟩).ratio ≠ none ∨
       (table.get ⟨i, h⟩).from_coin.enabled = false ∨
       (table.get ⟨i, h⟩).to_coin.enabled = false ∨
       get_market_ticker_price_from_list t
          ((table.get ⟨i, h⟩).from_coin.symbol ++ cfg.BRIDGE.symbol) = none ∨
       get_market_ticker_price_from_list t
          ((table.get ⟨i, h⟩).to_coin.symbol ++ cfg.BRIDGE.symbol) = none →
        (initialize_trade_thresholds cfg t table).get ⟨i, h2⟩ = table.get ⟨i, h⟩)) := by
  have hrow : ∀ pr : PairRec,
      initialize_row cfg t (initialize_row cfg t pr) = initialize_row cfg t pr := by
    intro pr
    cases ha : pr.ratio with
    | some r => simp [initialize_row, ha]
    | none =>
      cases hen : (!pr.from_coin.enabled || !pr.to_coin.enabled) with
      | true => simp [initialize_row, ha, hen]
      | false =>
        cases hf : get_market_ticker_price_from_list t
            (pr.from_coin.symbol ++ cfg.BRIDGE.symbol) with
        | none => simp [initialize_row, ha, hen, hf]
        | some fp =>
          cases ht : get_market_ticker_price_from_list t
              (pr.to_coin.symbol ++ cfg.BRIDGE.symbol) with
          | none => simp [initialize_row, ha, hen, hf, ht]
          | some tp => simp [initialize_row, ha, hen, hf, ht]
  constructor
  · unfold initialize_trade_thresholds
    rw [List.map_map]
    refine List.map_congr_left (fun a _ => ?_)
    simpa using hrow a
  · intro i h h2
    have hget : (initialize_trade_thresholds cfg t table).get ⟨i, h2⟩ =
        initialize_row cfg t (table.get ⟨i, h⟩) := by
      show (table.map _).get _ = _
      simp [List.getElem_map]
    have hset : ∀ (pr : PairRec) (fp tp : ℚ), pr.ratio = none →
        pr.from_coin.enabled = true → pr.to_coin.enabled = true →
        get_market_ticker_price_from_list t (pr.from_coin.symbol ++ cfg.BRIDGE.symbol) = some fp →
        get_market_ticker_price_from_list t (pr.to_coin.symbol ++ cfg.BRIDGE.symbol) = some tp →
        initialize_row cfg t pr = { pr with ratio := some (fp / tp) } := by
      intro pr fp tp ha hfe hte hf htp
      unfold initialize_row
      simp [ha, hfe, hte, hf, htp]
    have hkeep : ∀ pr : PairRec, (pr.ratio ≠ none ∨ pr.from_coin.enabled = false ∨
        pr.to_coin.enabled = false ∨
        get_market_ticker_price_from_list t (pr.from_coin.symbol ++ cfg.BRIDGE.symbol) = none ∨
        get_market_ticker_price_from_list t (pr.to_coin.symbol ++ cfg.BRIDGE.symbol) = none) →
        initialize_row cfg t pr = pr := by
      intro pr hcase
      unfold initialize_row
      cases hr : pr.ratio with
      | some r => simp
      | none =>
        rcases hcase with h1 | h1 | h1 | h1 | h1
        · exact absurd hr h1
        · simp [h1]
        · simp [h1]
        · simp [h1]
        · cases hf : get_market_ticker_price_from_list t
              (pr.from_coin.symbol ++ cfg.BRIDGE.symbol) with
          | none => simp [hf]
          | some fp => simp [hf, h1]
    exact ⟨fun fp tp ha hfe hte hf htp => by
        rw [hget]; exact hset _ fp tp ha hfe hte hf htp,
      fun hcase => by rw [hget]; exact hkeep _ hcase⟩

/-- A pair row A→B with the ratio still unset, for the C8 witness. -/
def pairAB0 : PairRec := ⟨coinA, coinB, none⟩

def table0 : List PairRec := [pairAB0]

/-- C8 witness: initializing the single unset row A→B with both prices
in the snapshot sets its ratio to 10/5. -/
theorem C8_initializer_idempotent_witness :
    (initialize_trade_thresholds cfg1 tickers1 table0).get
        ⟨0, by simp [initialize_trade_thresholds, table0]⟩ =
      { table0.get ⟨0, by simp [table0]⟩ with ratio := some ((10 : ℚ) / 5) } :=
  ((C8_initializer_idempotent cfg1 tickers1 table0).2 0 (by simp [table0])
      (by simp [initialize_trade_thresholds, table0])).1 10 5 rfl rfl rfl
    (by simp [table0, pairAB0, coinA, cfg1, bridgeUSDT,
      get_market_ticker_price_from_list, tickers1])
    (by simp [table0, pairAB0, coinB, cfg1, bridgeUSDT,
      get_market_ticker_price_from_list, tickers1])

/-- What the gate at the top of scout's per-asset loop decides for one
coin. -/
inductive StepDecision where
  | abort_pass
  | skip_coin
  | proceed (price : ℚ)
deriving DecidableEq, Repr

/-- The gate of scout's per-asset loop in the order the source checks
it: the missing-price test first, then the minimum-notional test. -/
def per_coin_gate (balance minimum : ℚ) : Option ℚ → StepDecision
  | none => StepDecision.abort_pass
  | some p =>
    if p * balance < minimum then StepDecision.skip_coin else StepDecision.proceed p

/-- The gate in the order the spec lists the steps: the minimum-notional
test (step 1) first — it can only fire when a price is present, because
the notional it tests is balance × price — then the missing-price abort
(step 2). -/
def per_coin_gate_spec (balance minimum : ℚ) (price : Option ℚ) : StepDecision :=
  match price with
  | some p =>
    if p * balance < minimum then StepDecision.skip_coin else StepDecision.proceed p
  | none => StepDecision.abort_pass

/-- C3: in scout's per-asset loop, a coin whose own price is missing
from the snapshot aborts the whole pass at once, whatever its balance —
in particular also when the balance check would pass — while a coin
whose balance is worth less than the minimum notional is skipped, the
loop going on over the remaining coins with the table unchanged; and the
spec-ordered gate (balance test first, firing only when a price is
present) decides every coin exactly as the source-ordered gate does. -/
theorem C3_per_coin_step_order (cfg : Config) (m : Manager) (all_tickers : Tickers)
    (coin : Coin) (rest : List Coin) (table : List PairRec) :
    (get_market_ticker_price_from_list all_tickers (coin.symbol ++ cfg.BRIDGE.symbol) = none →
      scout_loop cfg m all_tickers (coin :: rest) table =
        { table := table, actions := [], examined := [coin], aborted := true }) ∧
    (∀ p, get_market_ticker_price_from_list all_tickers (coin.symbol ++ cfg.BRIDGE.symbol) = some p →
      p * m.balances coin.symbol < m.min_notional_of coin.symbol cfg.BRIDGE.symbol →
      scout_loop cfg m all_tickers (coin :: rest) table =
        { scout_loop cfg m all_tickers rest table with
          examined := coin :: (scout_loop cfg m all_tickers rest table).examined }) ∧
    (∀ balance minimum price,
      per_coin_gate_spec balance minimum price = per_coin_gate balance minimum price) := by
  refine ⟨fun hnone => ?_, fun p hp hlt => ?_, fun b mn price => ?_⟩
  · unfold scout_loop; rw [hnone]
  · conv_lhs => rw [scout_loop]
    rw [hp]; simp only [if_pos hlt]
  · cases price <;> rfl

/-- In the bridge_scout loop, a buy of coin c is attempted only when the
bridge balance strictly exceeds c's minimum notional. -/
theorem buy_requires_balance (cfg : Config) (m : Manager) (all_tickers : Tickers)
    (bridge_balance : ℚ) (table : List PairRec) (coins : List Coin) (c : Coin)
    (h : Action.buy_action c ∈
      (bridge_scout_loop cfg m all_tickers bridge_balance table coins).actions) :
    m.min_notional_of c.symbol cfg.BRIDGE.symbol < bridge_balance := by
  induction coins with
  | nil => simp [bridge_scout_loop] at h
  | cons coin rest ih =>
    rw [bridge_scout_loop] at h
    cases hlk : get_market_ticker_price_from_list all_tickers
        (coin.symbol ++ cfg.BRIDGE.symbol) with
    | none => rw [hlk] at h; simp at h
    | some p =>
      rw [hlk] at h
      by_cases hany : (get_ratios cfg table coin p all_tickers).any
          (fun kv => decide (0 < kv.2)) = true
      · simp only [hany, if_true] at h
        exact ih h
      · simp only [Bool.not_eq_true] at hany
        simp only [hany, Bool.false_eq_true, if_false] at h
        by_cases hbb : m.min_notional_of coin.symbol cfg.BRIDGE.symbol < bridge_balance
        · simp only [if_pos hbb, List.mem_singleton] at h
          cases h
          exact hbb
        · simp only [if_neg hbb] at h
          simp at h

/-- C9: bridge_scout never attempts a buy of an asset whose minimum
notional exceeds the bridge balance — whenever the bridge balance is
below an asset's minimum notional, no buy of that asset is placed. -/
theorem C9_no_buy_below_minimum (cfg : Config) (m : Manager) (fetch : Nat)
    (table : List PairRec) (coins : List Coin) (c : Coin)
    (h : m.balances cfg.BRIDGE.symbol < m.min_notional_of c.symbol cfg.BRIDGE.symbol) :
    Action.buy_action c ∉ (bridge_scout cfg m fetch table coins).actions := by
  intro hmem
  have hgt := buy_requires_balance cfg m (m.ticker_stream fetch)
    (m.balances cfg.BRIDGE.symbol) table coins c hmem
  exact absurd hgt (lt_asymm h)

/-- The bridge_scout loop returns at the first coin with no strictly
positive score, buying it exactly when the bridge balance strictly
exceeds its minimum notional, and never reaches the coins after it. -/
theorem bridge_stop_at_first (cfg : Config) (m : Manager) (all_tickers : Tickers)
    (bridge_balance : ℚ) (table : List PairRec) (c : Coin) (pc : ℚ) (post : List Coin)
    (hc : get_market_ticker_price_from_list all_tickers
      (c.symbol ++ cfg.BRIDGE.symbol) = some pc)
    (hneg : (get_ratios cfg table c pc all_tickers).any
      (fun kv => decide (0 < kv.2)) = false) :
    ∀ pre : List Coin,
      (∀ c' ∈ pre, ∃ pc', get_market_ticker_price_from_list all_tickers
          (c'.symbol ++ cfg.BRIDGE.symbol) = some pc' ∧
        (get_ratios cfg table c' pc' all_tickers).any
          (fun kv => decide (0 < kv.2)) = true) →
      bridge_scout_loop cfg m all_tickers bridge_balance table (pre ++ c :: post) =
        { examined := pre ++ [c],
          actions := if m.min_notional_of c.symbol cfg.BRIDGE.symbol < bridge_balance
            then [Action.buy_action c] else [] } := by
  intro pre
  induction pre with
  | nil =>
    intro _
    rw [List.nil_append, bridge_scout_loop, hc]
    simp only [hneg, Bool.false_eq_true, if_false, List.nil_append]
    split_ifs <;> rfl
  | cons c' pre' ih =>
    intro hpre
    obtain ⟨pc', hlk', hany'⟩ := hpre c' (List.mem_cons_self c' pre')
    rw [List.cons_append, bridge_scout_loop, hlk']
    simp only [hany', if_true]
    rw [ih (fun x hx => hpre x (List.mem_cons_of_mem c' hx))]
    simp [List.cons_append]

/-- C10: an asset all of whose counterpart prices are absent from the
snapshot gets an empty score dictionary, so it vacuously passes the
no-positive-score test of bridge_scout; and the bridge_scout loop always
returns at the first asset with no strictly positive score — buying it
exactly when the bridge balance strictly exceeds its minimum notional —
without examining any asset after it, also when no buy was placed. -/
theorem C10_bridge_stop_first_nonpositive (cfg : Config) (m : Manager)
    (all_tickers : Tickers) (bridge_balance : ℚ) (table : List PairRec) :
    (∀ (coin : Coin) (p : ℚ),
      (∀ pr ∈ get_pairs_from table coin,
        get_market_ticker_price_from_list all_tickers
          (pr.to_coin.symbol ++ cfg.BRIDGE.symbol) = none) →
      get_ratios cfg table coin p all_tickers = []) ∧
    (∀ (pre post : List Coin) (c : Coin) (pc : ℚ),
      (∀ c' ∈ pre, ∃ pc', get_market_ticker_price_from_list all_tickers
          (c'.symbol ++ cfg.BRIDGE.symbol) = some pc' ∧
        (get_ratios cfg table c' pc' all_tickers).any
          (fun kv => decide (0 < kv.2)) = true) →
      get_market_ticker_price_from_list all_tickers
        (c.symbol ++ cfg.BRIDGE.symbol) = some pc →
      (get_ratios cfg table c pc all_tickers).any
        (fun kv => decide (0 < kv.2)) = false →
      bridge_scout_loop cfg m all_tickers bridge_balance table (pre ++ c :: post) =
        { examined := pre ++ [c],
          actions := if m.min_notional_of c.symbol cfg.BRIDGE.symbol < bridge_balance
            then [Action.buy_action c] else [] }) := by
  constructor
  · intro coin p hall
    unfold get_ratios
    rw [List.filterMap_eq_nil_iff]
    intro pr hpr
    rw [hall pr hpr]
  · intro pre post c pc hpre hc hneg
    exact bridge_stop_at_first cfg m all_tickers bridge_balance table c pc post hc hneg
      pre hpre

/-- transaction_through_bridge reads the manager only through sell_ok
and buy_fill. -/
theorem transaction_congr (cfg : Config) (m1 m2 : Manager)
    (hsell : m1.sell_ok = m2.sell_ok) (hbuy : m1.buy_fill = m2.buy_fill)
    (table : List PairRec) (pair : PairRec) (all_tickers : Tickers) :
    transaction_through_bridge cfg m1 table pair all_tickers =
      transaction_through_bridge cfg m2 table pair all_tickers := by
  unfold transaction_through_bridge
  rw [hsell, hbuy]

/-- The per-asset loop of scout reads the manager only through balances,
min notional, sell_ok and buy_fill — its snapshot is the one passed in. -/
theorem scout_loop_congr (cfg : Config) (m1 m2 : Manager)
    (hbal : m1.balances = m2.balances) (hmin : m1.min_notional_of = m2.min_notional_of)
    (hsell : m1.sell_ok = m2.sell_ok) (hbuy : m1.buy_fill = m2.buy_fill) :
    ∀ (all_tickers : Tickers) (coins : List Coin) (table : List PairRec),
      scout_loop cfg m1 all_tickers coins table = scout_loop cfg m2 all_tickers coins table := by
  intro all_tickers coins
  induction coins with
  | nil => intro table; rfl
  | cons coin rest ih =>
    intro table
    rw [scout_loop, scout_loop]
    simp only [hbal, hmin, transaction_congr cfg m1 m2 hsell hbuy, ih]

/-- The bridge_scout loop reads the manager only through its minimum
notional table — its snapshot and bridge balance are passed in. -/
theorem bridge_loop_congr (cfg : Config) (m1 m2 : Manager)
    (hmin : m1.min_notional_of = m2.min_notional_of) :
    ∀ (all_tickers : Tickers) (bridge_balance : ℚ) (table : List PairRec)
      (coins : List Coin),
      bridge_scout_loop cfg m1 all_tickers bridge_balance table coins =
        bridge_scout_loop cfg m2 all_tickers bridge_balance table coins := by
  intro all_tickers bridge_balance table coins
  induction coins with
  | nil => rfl
  | cons coin rest ih =>
    rw [bridge_scout_loop, bridge_scout_loop, hmin, ih]

/-- C2 (amended): every comparison in the per-asset loop of a scout pass
uses the snapshot fetched at the start of the pass, and the Bridge
Rebalance Check run at the end of the pass fetches and uses a fresh
snapshot of its own — the outcome of a pass depends only on the first
two snapshots of the stream, and a pass makes exactly two snapshot
fetches unless it aborts early, in which case it makes one. -/
theorem C2_pass_uses_two_snapshots (cfg : Config) (m1 m2 : Manager)
    (table : List PairRec) (coins : List Coin)
    (hbal : m1.balances = m2.balances)
    (hmin : m1.min_notional_of = m2.min_notional_of)
    (hsell : m1.sell_ok = m2.sell_ok) (hbuy : m1.buy_fill = m2.buy_fill)
    (h0 : m1.ticker_stream 0 = m2.ticker_stream 0)
    (h1 : m1.ticker_stream 1 = m2.ticker_stream 1) :
    scout cfg m1 table coins = scout cfg m2 table coins ∧
    (scout cfg m1 table coins).fetches =
      if (scout cfg m1 table coins).aborted then 1 else 2 := by
  constructor
  · unfold scout bridge_scout
    rw [h0, h1, hbal]
    simp only [scout_loop_congr cfg m1 m2 hbal hmin hsell hbuy,
      bridge_loop_congr cfg m1 m2 hmin]
  · unfold scout
    by_cases hab : (scout_loop cfg m1 (m1.ticker_stream 0) coins table).aborted <;>
      simp [hab]

/-- The spec's data-model invariant: every pair row's stored ratio is
either unset or strictly positive (ℚ has no infinities, so a positive
rational is in particular finite). -/
def ratio_invariant (table : List PairRec) : Prop :=
  ∀ pr ∈ table, ∀ r : ℚ, pr.ratio = some r → 0 < r

/-- Every price of the snapshot is strictly positive. -/
def tickers_positive (t : Tickers) : Prop := ∀ e ∈ t, 0 < e.2

/-- A price looked up in a positive snapshot is positive. -/
theorem lookup_pos {t : Tickers} {s : String} {p : ℚ} (ht : tickers_positive t)
    (h : get_market_ticker_price_from_list t s = some p) : 0 < p := by
  unfold get_market_ticker_price_from_list at h
  cases hf : t.find? (fun e => e.1 == s) with
  | none => rw [hf] at h; simp at h
  | some e =>
    rw [hf] at h
    simp at h
    rw [← h]
    exact ht e (List.mem_of_find?_eq_some hf)

/-- One row of a recalibration keeps the positivity invariant. -/
theorem update_row_pos (cfg : Config) (all_tickers : Tickers) (current_coin : Coin)
    (price : ℚ) (hp : 0 < price) (ht : tickers_positive all_tickers) (pr : PairRec)
    (hpr : ∀ r : ℚ, pr.ratio = some r → 0 < r) :
    ∀ r : ℚ, (update_row cfg all_tickers current_coin price pr).ratio = some r → 0 < r := by
  intro r hr
  unfold update_row at hr
  by_cases hto : (pr.to_coin == current_coin) = true
  · rw [if_pos hto] at hr
    cases hf : get_market_ticker_price_from_list all_tickers
        (pr.from_coin.symbol ++ cfg.BRIDGE.symbol) with
    | none => rw [hf] at hr; exact hpr r hr
    | some fp =>
      rw [hf] at hr
      simp only [Option.some.injEq] at hr
      rw [← hr]
      exact div_pos (lookup_pos ht hf) hp
  · rw [if_neg hto] at hr; exact hpr r hr

/-- update_trade_threshold keeps the positivity invariant when the fill
price and all snapshot prices are positive. -/
theorem update_preserves_invariant (cfg : Config) (table : List PairRec) (c : Coin)
    (price_opt : Option ℚ) (hpos : ∀ p, price_opt = some p → 0 < p)
    (all_tickers : Tickers) (ht : tickers_positive all_tickers)
    (hinv : ratio_invariant table) :
    ratio_invariant (update_trade_threshold cfg table c price_opt all_tickers) := by
  cases price_opt with
  | none => exact hinv
  | some price =>
    intro pr hmem r hr
    obtain ⟨pr0, hpr0, heq⟩ := List.mem_map.mp hmem
    rw [← heq] at hr
    exact update_row_pos cfg all_tickers c price (hpos price rfl) ht pr0
      (hinv pr0 hpr0) r hr

/-- One row of the initializer keeps the positivity invariant. -/
theorem initialize_row_pos (cfg : Config) (all_tickers : Tickers)
    (ht : tickers_positive all_tickers) (pr : PairRec)
    (hpr : ∀ r : ℚ, pr.ratio = some r → 0 < r) :
    ∀ r : ℚ, (initialize_row cfg all_tickers pr).ratio = some r → 0 < r := by
  intro r hr
  cases ha : pr.ratio with
  | some r0 =>
    rw [show initialize_row cfg all_tickers pr = pr by simp [initialize_row, ha]] at hr
    exact hpr r hr
  | none =>
    cases hen : (!pr.from_coin.enabled || !pr.to_coin.enabled) with
    | true =>
      rw [show initialize_row cfg all_tickers pr = pr by
        simp [initialize_row, ha, hen]] at hr
      exact hpr r hr
    | false =>
      cases hf : get_market_ticker_price_from_list all_tickers
          (pr.from_coin.symbol ++ cfg.BRIDGE.symbol) with
      | none =>
        rw [show initialize_row cfg all_tickers pr = pr by
          simp [initialize_row, ha, hen, hf]] at hr
        exact hpr r hr
      | some fp =>
        cases htc : get_market_ticker_price_from_list all_tickers
            (pr.to_coin.symbol ++ cfg.BRIDGE.symbol) with
        | none =>
          rw [show initialize_row cfg all_tickers pr = pr by
            simp [initialize_row, ha, hen, hf, htc]] at hr
          exact hpr r hr
        | some tp =>
          rw [show initialize_row cfg all_tickers pr = { pr with ratio := some (fp / tp) } by
            simp [initialize_row, ha, hen, hf, htc]] at hr
          simp only [Option.some.injEq] at hr
          rw [← hr]
          exact div_pos (lookup_pos ht hf) (lookup_pos ht htc)

/-- initialize_trade_thresholds keeps the positivity invariant when all
snapshot prices are positive. -/
theorem initialize_preserves_invariant (cfg : Config) (t : Tickers)
    (ht : tickers_positive t) (table : List PairRec) (hinv : ratio_invariant table) :
    ratio_invariant (initialize_trade_thresholds cfg t table) := by
  intro pr hmem r hr
  obtain ⟨pr0, hpr0, heq⟩ := List.mem_map.mp hmem
  rw [← heq] at hr
  exact initialize_row_pos cfg t ht pr0 (hinv pr0 hpr0) r hr

/-- transaction_through_bridge keeps the positivity invariant when all
snapshot prices and all fill prices are positive. -/
theorem transaction_preserves_invariant (cfg : Config) (m : Manager)
    (table : List PairRec) (pair : PairRec) (all_tickers : Tickers)
    (ht : tickers_positive all_tickers)
    (hbuy : ∀ c p, m.buy_fill c = some p → 0 < p) (hinv : ratio_invariant table) :
    ratio_invariant (transaction_through_bridge cfg m table pair all_tickers).2.1 := by
  unfold transaction_through_bridge
  by_cases hs : m.sell_ok pair.from_coin
  · rw [if_pos hs]
    cases hb : m.buy_fill pair.to_coin with
    | none => exact hinv
    | some price =>
      exact update_preserves_invariant cfg table pair.to_coin (some price)
        (fun p hp => Option.some.inj hp ▸ hbuy _ _ hb) all_tickers ht hinv
  · rw [if_neg hs]; exact hinv

/-- The per-asset loop of scout keeps the positivity invariant. -/
theorem scout_loop_preserves_invariant (cfg : Config) (m : Manager)
    (all_tickers : Tickers) (ht : tickers_positive all_tickers)
    (hbuy : ∀ c p, m.buy_fill c = some p → 0 < p) :
    ∀ (coins : List Coin) (table : List PairRec), ratio_invariant table →
      ratio_invariant (scout_loop cfg m all_tickers coins table).table := by
  intro coins
  induction coins with
  | nil => intro table h; exact h
  | cons coin rest ih =>
    intro table h
    rw [scout_loop]
    cases get_market_ticker_price_from_list all_tickers (coin.symbol ++ cfg.BRIDGE.symbol) with
    | none => exact h
    | some p =>
      dsimp only
      split_ifs with hlt
      · exact ih table h
      · cases max_pair ((get_ratios cfg table coin p all_tickers).filter
            (fun kv => decide (0 < kv.2))) with
        | none => exact ih table h
        | some best_pair =>
          exact ih _ (transaction_preserves_invariant cfg m table best_pair
            all_tickers ht hbuy h)

/-- C6: when every snapshot price and every fill price is positive,
"every stored ratio is unset or strictly positive" is preserved by
threshold initialization, by post-trade recalibration, by a whole scout
pass, and by arbitrary sequences of scout passes. -/
theorem C6_ratio_positive_invariant :
    (∀ (cfg : Config) (t : Tickers) (table : List PairRec), tickers_positive t →
      ratio_invariant table → ratio_invariant (initialize_trade_thresholds cfg t table)) ∧
    (∀ (cfg : Config) (table : List PairRec) (c : Coin) (price : ℚ) (t : Tickers),
      tickers_positive t → 0 < price → ratio_invariant table →
      ratio_invariant (update_trade_threshold cfg table c (some price) t)) ∧
    (∀ (cfg : Config) (m : Manager) (table : List PairRec) (coins : List Coin),
      (∀ n, tickers_positive (m.ticker_stream n)) →
      (∀ c p, m.buy_fill c = some p → 0 < p) →
      ratio_invariant table → ratio_invariant (scout cfg m table coins).table) ∧
    (∀ (cfg : Config) (ms : List Manager) (table : List PairRec) (coins : List Coin),
      (∀ mm ∈ ms, (∀ n, tickers_positive (mm.ticker_stream n)) ∧
        (∀ c p, mm.buy_fill c = some p → 0 < p)) →
      ratio_invariant table →
      ratio_invariant (ms.foldl (fun tb mm => (scout cfg mm tb coins).table) table)) := by
  have hscout : ∀ (cfg : Config) (m : Manager) (table : List PairRec) (coins : List Coin),
      (∀ n, tickers_positive (m.ticker_stream n)) →
      (∀ c p, m.buy_fill c = some p → 0 < p) →
      ratio_invariant table → ratio_invariant (scout cfg m table coins).table := by
    intro cfg m table coins hts hbuy hinv
    unfold scout
    by_cases hab : (scout_loop cfg m (m.ticker_stream 0) coins table).aborted = true
    · rw [if_pos hab]
      exact scout_loop_preserves_invariant cfg m _ (hts 0) hbuy coins table hinv
    · rw [if_neg hab]
      exact scout_loop_preserves_invariant cfg m _ (hts 0) hbuy coins table hinv
  refine ⟨fun cfg t table ht hinv => initialize_preserves_invariant cfg t ht table hinv,
    fun cfg table c price t ht hp hinv =>
      update_preserves_invariant cfg table c (some price)
        (fun p hps => Option.some.inj hps ▸ hp) t ht hinv,
    hscout, ?_⟩
  intro cfg ms
  induction ms with
  | nil => intro table coins _ hinv; exact hinv
  | cons mm rest ih =>
    intro table coins hms hinv
    rw [List.foldl_cons]
    exact ih _ coins (fun x hx => hms x (List.mem_cons_of_mem mm hx))
      (hscout cfg mm table coins (hms mm (List.mem_cons_self mm rest)).1
        (hms mm (List.mem_cons_self mm rest)).2 hinv)

/-! Concrete worlds for the remaining witnesses and the C2
counterexample.  The section below makes the arithmetic of ℚ visible to
kernel reduction so that `decide` can evaluate the embedded functions on
these concrete inputs. -/

def coinC : Coin := ⟨"CCC", true⟩

/-- A snapshot under which the pair A→B scores negative: B got dearer. -/
def tickers_bad : Tickers := [("AAAUSDT", 10), ("BBBUSDT", 100)]

/-- A manager whose first snapshot is tickers1 and whose second is
tickers_bad: the per-asset loop skips A (zero balance), and the bridge
check, reading tickers_bad, sees no positive score and buys A. -/
def mgr_c2a : Manager :=
  { balances := fun s => if s == "USDT" then 100 else 0,
    min_notional_of := fun _ _ => 1,
    sell_ok := fun _ => true,
    buy_fill := fun _ => some 1,
    ticker_stream := fun n => if n == 0 then tickers1 else tickers_bad }

/-- The same manager except that every snapshot is tickers1: the bridge
check now sees the positive score 0.498 for A→B and buys nothing. -/
def mgr_c2b : Manager :=
  { mgr_c2a with ticker_stream := fun _ => tickers1 }

section
set_option allowUnsafeReducibility true
attribute [local semireducible] Rat.mul Rat.inv Rat.add Rat.sub

/-- C2 counterexample: two worlds that differ only in the snapshot
served by the second get_all_market_tickers call of the pass — the
balances, minimum notionals, order outcomes and the snapshot at the
start of the pass are identical — give different scout outcomes (one
buys A in the bridge check, the other does not), and the pass makes two
snapshot fetches, not one: the Bridge Rebalance Check does not reuse the
snapshot taken at the start of the pass. -/
theorem C2_counterexample :
    mgr_c2a.balances = mgr_c2b.balances ∧
    mgr_c2a.min_notional_of = mgr_c2b.min_notional_of ∧
    mgr_c2a.sell_ok = mgr_c2b.sell_ok ∧
    mgr_c2a.buy_fill = mgr_c2b.buy_fill ∧
    mgr_c2a.ticker_stream 0 = mgr_c2b.ticker_stream 0 ∧
    (scout cfg1 mgr_c2a table1 [coinA]).fetches = 2 ∧
    scout cfg1 mgr_c2a table1 [coinA] ≠ scout cfg1 mgr_c2b table1 [coinA] :=
  ⟨rfl, rfl, rfl, rfl, rfl, by decide, by decide⟩

/-- C2 witness: at a concrete world the amended statement holds — the
outcome agrees with itself and the completed pass made two fetches. -/
theorem C2_pass_uses_two_snapshots_witness :
    scout cfg1 mgr_c2a table1 [coinA] = scout cfg1 mgr_c2a table1 [coinA] ∧
    (scout cfg1 mgr_c2a table1 [coinA]).fetches =
      if (scout cfg1 mgr_c2a table1 [coinA]).aborted then 1 else 2 :=
  C2_pass_uses_two_snapshots cfg1 mgr_c2a mgr_c2a table1 [coinA] rfl rfl rfl rfl rfl rfl

/-- C3 witness: coin C has no ticker in the snapshot, so the per-asset
loop aborts the pass at once with the table unchanged. -/
theorem C3_per_coin_step_order_witness :
    scout_loop cfg1 mgr_fail tickers1 [coinC] table1 =
      { table := table1, actions := [], examined := [coinC], aborted := true } :=
  (C3_per_coin_step_order cfg1 mgr_fail tickers1 coinC [] table1).1 (by decide)

/-- C6 witness: recalibrating the concrete table at fill price 4 under
the positive snapshot keeps every stored ratio positive. -/
theorem C6_ratio_positive_invariant_witness :
    ratio_invariant (update_trade_threshold cfg1 table1 coinB (some 4) tickers1) :=
  C6_ratio_positive_invariant.2.1 cfg1 table1 coinB 4 tickers1
    (by
      intro e he
      simp [tickers1] at he
      rcases he with h | h <;> rw [h] <;> norm_num)
    (by norm_num)
    (by
      intro pr hm r hr
      simp [table1] at hm
      rw [hm] at hr
      simp [pairAB] at hr
      rw [← hr]
      norm_num)

/-- C9 witness: with a zero bridge balance and minimum notional 10, no
buy of coin A is placed by bridge_scout. -/
theorem C9_no_buy_below_minimum_witness :
    Action.buy_action coinA ∉ (bridge_scout cfg1 mgr_fail 1 table1 [coinA]).actions :=
  C9_no_buy_below_minimum cfg1 mgr_fail 1 table1 [coinA] coinA (by decide)

/-- C10 witness: under the snapshot where A→B scores negative, the
bridge loop stops at A — the first coin with no positive score — buys it
(the bridge balance 100 exceeds its minimum notional 1) and never
examines coin C behind it. -/
theorem C10_bridge_stop_first_nonpositive_witness :
    bridge_scout_loop cfg1 mgr_c2a tickers_bad 100 table1 ([] ++ coinA :: [coinC]) =
      { examined := [] ++ [coinA],
        actions := if mgr_c2a.min_notional_of coinA.symbol cfg1.BRIDGE.symbol < 100
          then [Action.buy_action coinA] else [] } :=
  (C10_bridge_stop_first_nonpositive cfg1 mgr_c2a tickers_bad 100 table1).2
    [] [coinC] coinA 10 (fun c' hc' => absurd hc' (List.not_mem_nil c'))
    (by decide) (by decide)

end

end AutoTrader

